import Mathlib

/-!
Verification development for the cogstim stimulus-generation package.

The subject is the non-overlapping dot-layout engine used by the dot-array
generators, its retry-driving callers in `src/cogstim/ans_dots.py`, the area
equalizer and its callers in `src/cogstim/match_to_sample.py` and
`src/cogstim/generators/match_to_sample.py`, the planner in
`src/cogstim/mts_helpers/planner.py`, and the summary metrics in
`src/cogstim/helpers/mts_io.py` and `src/scripts/mts_check_equalization.py`.

The geometric core (`cogstim/dots_core.py` with `NumberPoints`, the
`equalize_pair` geometry helpers and `cogstim/config.py`) is not part of the
source tree; those parts are modelled from the specification text, and each
such definition says so in its documentation string.  Python floats are
modelled as exact rationals, Python ints as `Nat`/`Int`, and functions that
can raise are embedded with `Except`/`Option` result types.
-/

namespace Cogstim

/-- Group label distinguishing the two coloured point sets within one image. -/
inductive GroupLabel where
  | colour_1
  | colour_2
deriving DecidableEq, Repr

/-- Point record: centre coordinates, radius, and the group label of the set
the point belongs to.  Coordinates and radii are rationals standing for the
Python floats of the source. -/
structure Point where
  x : ℚ
  y : ℚ
  radius : ℚ
  group : GroupLabel
deriving DecidableEq, Repr

/-- Squared Euclidean distance between the centres of two points. -/
def sqDist (p q : Point) : ℚ :=
  (p.x - q.x) ^ 2 + (p.y - q.y) ^ 2

/-- Modelled from the spec: the Geometry/Collision Engine check `overlaps`
(spec section 4.1; the source module `cogstim/dots_core.py` is absent from the
tree).  A candidate overlaps an existing point exactly when the distance
between the centres is less than the sum of the radii; the comparison is made
on squared quantities, which agrees with the distance comparison whenever the
radii are non-negative. -/
def overlaps (c : Point) (existing : List Point) : Bool :=
  existing.any fun p => decide (sqDist c p < (c.radius + p.radius) ^ 2)

/-- Read-only layout configuration shared by all placement calls of one
generation request (spec section 3). -/
structure LayoutConfig where
  minRadius : ℚ
  maxRadius : ℚ
  attemptsLimit : ℕ
  canvasSize : ℚ
deriving DecidableEq, Repr

/-- Raw random draws backing one candidate: one radius draw and two centre
coordinate draws.  The implicit process-wide random generator of the source is
modelled as an explicit stream of these draws. -/
structure RawDraw where
  r : ℚ
  cx : ℚ
  cy : ℚ
deriving DecidableEq, Repr

/-- Clamp a value into the closed interval between lo and hi. -/
def clamp (lo hi v : ℚ) : ℚ := max lo (min v hi)

/-- Modelled from the spec: candidate sampling (spec section 4.1; the source
module `cogstim/dots_core.py` is absent from the tree).  The sampler draws a
radius from `[min_radius, max_radius]` and a centre from the sub-region of
the canvas that keeps the whole disk in bounds; an arbitrary raw draw is
mapped into those ranges by clamping, which realises exactly the range
guarantee the spec documents for the sampler. -/
def sampleCandidate (cfg : LayoutConfig) (g : GroupLabel) (d : RawDraw) : Point :=
  { x := clamp (clamp cfg.minRadius cfg.maxRadius d.r)
      (cfg.canvasSize - clamp cfg.minRadius cfg.maxRadius d.r) d.cx
    y := clamp (clamp cfg.minRadius cfg.maxRadius d.r)
      (cfg.canvasSize - clamp cfg.minRadius cfg.maxRadius d.r) d.cy
    radius := clamp cfg.minRadius cfg.maxRadius d.r
    group := g }

/-- Context carried by a recoverable placement-exhaustion failure: how many
points had been placed successfully and the group of the failing point (spec
sections 4.2 and 7). -/
structure PointLayoutError where
  placed : ℕ
  group : GroupLabel
deriving DecidableEq, Repr

/-- Modelled from the spec: placement of a single point (spec section 4.2;
the source module `cogstim/dots_core.py` is absent from the tree).  Candidates
are sampled from the raw-draw stream `rand` starting at stream position `idx`
and tested against all currently placed points of both groups; the first
non-overlapping candidate is accepted, together with the next unused stream
position.  The final argument is the per-point attempt budget; exhausting it
reports a `PointLayoutError`. -/
def placeOnePoint (cfg : LayoutConfig) (g : GroupLabel) (existing : List Point)
    (rand : ℕ → RawDraw) : ℕ → ℕ → Except PointLayoutError (Point × ℕ)
  | _, 0 => Except.error ⟨existing.length, g⟩
  | idx, fuel + 1 =>
    if overlaps (sampleCandidate cfg g (rand idx)) existing then
      placeOnePoint cfg g existing rand (idx + 1) fuel
    else
      Except.ok (sampleCandidate cfg g (rand idx), idx + 1)

/-- Modelled from the spec: `place_n_points` (spec section 4.2; the source
module `cogstim/dots_core.py` is absent from the tree).  Appends `n` new
non-overlapping points labelled `g` to `existing`, which may already hold
points of the other group; each point gets a fresh per-point attempt budget of
`cfg.attemptsLimit` and a placement failure is propagated.  With `n = 0` the
existing array is returned unchanged. -/
def place_n_points (n : ℕ) (g : GroupLabel) (existing : List Point)
    (cfg : LayoutConfig) (rand : ℕ → RawDraw) (idx : ℕ) :
    Except PointLayoutError (List Point) :=
  match n with
  | 0 => Except.ok existing
  | m + 1 =>
    match placeOnePoint cfg g existing rand idx cfg.attemptsLimit with
    | Except.error e => Except.error e
    | Except.ok (p, idx2) => place_n_points m g (existing ++ [p]) cfg rand idx2

/-- No-overlap invariant of a point array, in squared form: for every pair of
points the squared distance between centres is at least the squared sum of the
radii.  For non-negative radii this is the spec's distance inequality. -/
def nonOverlapping (pts : List Point) : Prop :=
  pts.Pairwise fun p q => (p.radius + q.radius) ^ 2 ≤ sqDist p q

/-- In-bounds invariant of one point: the whole disk lies inside the canvas in
both coordinates. -/
def inBounds (cfg : LayoutConfig) (p : Point) : Prop :=
  p.radius ≤ p.x ∧ p.x ≤ cfg.canvasSize - p.radius ∧
    p.radius ≤ p.y ∧ p.y ≤ cfg.canvasSize - p.radius

/-- All radii occurring in the array are non-negative. -/
def radiiNonneg (pts : List Point) : Prop := ∀ p ∈ pts, 0 ≤ p.radius

/-- One-colour branch of `PointsGenerator.get_positions`
(`src/cogstim/ans_dots.py` lines 119 to 126): one pair `(a, 0)` for every
count `a` in `range(min_point_num, max_point_num + 1)`; the second group is
always requested with zero points. -/
def get_positions_one_colour (minP maxP : ℕ) : List (ℕ × ℕ) :=
  (List.range' minP (maxP + 1 - minP)).map fun a => (a, 0)

/-- Terminal failure raised by the outer retry loop of
`PointsGenerator.create_and_save` (`src/cogstim/ans_dots.py` lines 27 to 28
and 99 to 104).  The Python message interpolates the image name (built from
the two requested counts) and the number of attempts made; those diagnostic
data are carried as fields. -/
structure TerminalPointLayoutError where
  n1 : ℕ
  n2 : ℕ
  attempts : ℕ
deriving DecidableEq, Repr

/-- Whether one outer attempt ended in a recoverable placement failure. -/
def layoutFailed (r : Except PointLayoutError Unit) : Bool :=
  match r with
  | Except.error _ => true
  | Except.ok _ => false

/-- Loop body of `PointsGenerator.create_and_save` (`src/cogstim/ans_dots.py`
lines 91 to 105): while `attempts < attempts_limit`, run
`create_and_save_once` and stop on success; on a `PointLayoutError` increment
`attempts` and raise `TerminalPointLayoutError` once `attempts` equals the
limit.  Each outer attempt rebuilds the whole image from scratch, so the
attempts are modelled as an oracle `once` from the attempt index to that
attempt's outcome.  The fuel argument equals `limit - attempts` and makes the
loop structural; the result is `some k` when attempt `k` saved the image, and
`none` when the loop exits without ever creating the image, which happens
exactly when the limit is zero. -/
def createAndSaveGo (n1 n2 : ℕ) (once : ℕ → Except PointLayoutError Unit)
    (limit : ℕ) : ℕ → ℕ → Except TerminalPointLayoutError (Option ℕ)
  | _, 0 => Except.ok none
  | attempts, fuel + 1 =>
    match once attempts with
    | Except.ok _ => Except.ok (some attempts)
    | Except.error _ =>
      if attempts + 1 = limit then Except.error ⟨n1, n2, attempts + 1⟩
      else createAndSaveGo n1 n2 once limit (attempts + 1) fuel

/-- Outer retry loop of `PointsGenerator.create_and_save`
(`src/cogstim/ans_dots.py` lines 86 to 105), entered with the attempts
counter at zero. -/
def create_and_save (n1 n2 : ℕ) (once : ℕ → Except PointLayoutError Unit)
    (limit : ℕ) : Except TerminalPointLayoutError (Option ℕ) :=
  createAndSaveGo n1 n2 once limit 0 limit

/-- Configuration slice of `PointsGenerator` relevant to the retry budgets. -/
structure AnsConfig where
  attemptsLimit : ℕ
deriving DecidableEq, Repr

/-- Outer retry budget used by `PointsGenerator.create_and_save`
(`src/cogstim/ans_dots.py` line 91: `while attempts <
self.config["attempts_limit"]`). -/
def outerRetryBudget (c : AnsConfig) : ℕ := c.attemptsLimit

/-- Inner layout attempt budget that `PointsGenerator.create_image` hands to
the point-placement engine (`src/cogstim/ans_dots.py` line 76: the
`NumberPoints` drawer receives `self.config["attempts_limit"]`). -/
def innerLayoutBudget (c : AnsConfig) : ℕ := c.attemptsLimit

/-- Default `attempts_limit` of `GENERAL_CONFIG` in `src/cogstim/ans_dots.py`
(line 17). -/
def generalConfig : AnsConfig := ⟨2000⟩

/-- Total rendered area of a point array, in units of pi: the sum of squared
radii.  The spec's `area` is the sum of `pi * radius ^ 2` over the array; the
constant factor pi is irrelevant to every comparison made with areas, so it is
dropped to stay inside the rationals. -/
def area (pts : List Point) : ℚ := (pts.map fun p => p.radius ^ 2).sum

/-- Tolerance predicate of the spec (section 4.3): two areas are equal enough
when their absolute difference is at most the larger of the absolute tolerance
and the relative tolerance scaled by the larger area. -/
def equalEnough (areaA areaB absTol relTol : ℚ) : Prop :=
  |areaA - areaB| ≤ max absTol (relTol * max areaA areaB)

instance (a b absTol relTol : ℚ) : Decidable (equalEnough a b absTol relTol) :=
  inferInstanceAs (Decidable (|a - b| ≤ max absTol (relTol * max a b)))

/-- Result of one equalization attempt: the success flag together with both
point arrays (spec section 3). -/
structure EqualizationResult where
  success : Bool
  group_a_points : List Point
  group_b_points : List Point
deriving DecidableEq, Repr

/-- Modelled from the spec: the Area Equalizer loop (spec section 4.3; the
source modules `cogstim/mts_helpers/geometry.py` and
`cogstim/helpers/mts_geometry.py` are absent from the tree).  Compute both
areas; succeed immediately when they are already within tolerance; otherwise
regenerate the side with the smaller area from the fresh-layout oracle
`regen` and recheck, spending one unit of the regeneration budget; when the
budget is exhausted report failure as a result with `success = false`
carrying the last state of both arrays. -/
def equalizeFrom (relTol absTol : ℚ) (regen : ℕ → List Point) :
    ℕ → ℕ → List Point → List Point → EqualizationResult
  | _, 0, a, b =>
    if equalEnough (area a) (area b) absTol relTol then ⟨true, a, b⟩
    else ⟨false, a, b⟩
  | idx, fuel + 1, a, b =>
    if equalEnough (area a) (area b) absTol relTol then ⟨true, a, b⟩
    else if area a ≤ area b then
      equalizeFrom relTol absTol regen (idx + 1) fuel (regen idx) b
    else
      equalizeFrom relTol absTol regen (idx + 1) fuel a (regen idx)

/-- Modelled from the spec: `equalize` (spec section 4.3), entered with the
full regeneration budget and the fresh-layout oracle at position zero. -/
def equalize (a b : List Point) (relTol absTol : ℚ) (attemptsLimit : ℕ)
    (regen : ℕ → List Point) : EqualizationResult :=
  equalizeFrom relTol absTol regen 0 attemptsLimit a b

/-- Outcome alternatives for one planned equalized pair in the orchestrator;
`aborted` is included so that never aborting is expressible. -/
inductive RunOutcome where
  | skipped
  | savedEqualized
  | savedRnd
  | aborted
deriving DecidableEq, Repr

/-- Decision logic of `ImagePrinter.run` for an equalized task
(`src/cogstim/match_to_sample.py` lines 44 to 53): the pair is not saved when
the two counts differ and equalization failed; otherwise it is saved under the
tag `equalized` on success and under the tag `rnd` on failure.  No branch
aborts the run. -/
def imagePrinterEqualizedOutcome (n1 n2 : ℕ) (success : Bool) : RunOutcome :=
  if n1 ≠ n2 ∧ success = false then RunOutcome.skipped
  else if success then RunOutcome.savedEqualized
  else RunOutcome.savedRnd

/-- Caller `MatchToSampleGenerator.create_image_pair`
(`src/cogstim/generators/match_to_sample.py` lines 101 to 112): rebinds both
point arrays from the equalization result, and returns `none` (the caller then
skips saving) when equalization failed. -/
def create_image_pair (sPts mPts : List Point) (relTol absTol : ℚ)
    (limit : ℕ) (regen : ℕ → List Point) : Option (List Point × List Point) :=
  if (equalize sPts mPts relTol absTol limit regen).success then
    some ((equalize sPts mPts relTol absTol limit regen).group_a_points,
      (equalize sPts mPts relTol absTol limit regen).group_b_points)
  else none

/-- Legacy caller `generate_pair` (`src/cogstim/match_to_sample.py` lines
114 to 126): runs equalization binding only the success flag, and returns the
pair of arrays bound before the equalization call together with that flag. -/
def generate_pair (sPts mPts : List Point) (relTol absTol : ℚ)
    (limit : ℕ) (regen : ℕ → List Point) : (List Point × List Point) × Bool :=
  ((sPts, mPts), (equalize sPts mPts relTol absTol limit regen).success)

/-- Acceptance check implemented in `src/scripts/mts_check_equalization.py`
(lines 41 to 50): a pair is within tolerance when the absolute difference is
at most `abs_tol` or the relative difference is at most `rel_tol`, where the
relative difference divides the absolute difference by `max(a, b, 1)` exactly
as `rel_diff` in `SummaryWriter.add` does. -/
def implEqualEnough (areaA areaB absTol relTol : ℚ) : Prop :=
  |areaA - areaB| ≤ absTol ∨ |areaA - areaB| / max (max areaA areaB) 1 ≤ relTol

/-- Division guarded against a zero denominator; a `none` result is the
embedding of a Python `ZeroDivisionError`. -/
def checkedDiv (x y : ℚ) : Option ℚ :=
  if y = 0 then none else some (x / y)

/-- Row appended by `SummaryWriter.add` (`src/cogstim/helpers/mts_io.py`
lines 40 to 49). -/
structure SummaryRow where
  num1 : ℤ
  num2 : ℤ
  area1Px : ℤ
  area2Px : ℤ
  ratio : ℚ
  absDiffPx : ℤ
  relDiff : ℚ
  equalized : Bool
deriving DecidableEq, Repr

/-- Metrics computation of `SummaryWriter.add` (`src/cogstim/helpers/mts_io.py`
lines 35 to 49): `ratio` is `num1 / num2` guarded to `0` when `num2 == 0`,
`abs_diff_px` is the absolute area difference, and `rel_diff` divides it by
`max(area1_px, area2_px, 1)`.  Both divisions are embedded as checked
divisions so that a division by zero would surface as `none`. -/
def summaryWriterAdd (num1 num2 area1Px area2Px : ℤ) (equalized : Bool) :
    Option SummaryRow :=
  (if num2 ≠ 0 then checkedDiv (num1 : ℚ) (num2 : ℚ) else some 0).bind fun ratio =>
    (checkedDiv ((|area1Px - area2Px| : ℤ) : ℚ)
        ((max (max area1Px area2Px) 1 : ℤ) : ℚ)).bind fun relDiff =>
      some ⟨num1, num2, area1Px, area2Px, ratio, |area1Px - area2Px|, relDiff, equalized⟩

/-- Lexicographic order on pairs of naturals, as Python orders tuples. -/
def lexLe (p q : ℕ × ℕ) : Prop := p.1 < q.1 ∨ (p.1 = q.1 ∧ p.2 ≤ q.2)

/-- Strict lexicographic order on pairs of naturals. -/
def lexLt (p q : ℕ × ℕ) : Prop := p.1 < q.1 ∨ (p.1 = q.1 ∧ p.2 < q.2)

instance (p q : ℕ × ℕ) : Decidable (lexLe p q) :=
  inferInstanceAs (Decidable (p.1 < q.1 ∨ (p.1 = q.1 ∧ p.2 ≤ q.2)))

instance (p q : ℕ × ℕ) : Decidable (lexLt p q) :=
  inferInstanceAs (Decidable (p.1 < q.1 ∨ (p.1 = q.1 ∧ p.2 < q.2)))

/-- Candidate pairs collected by `GenerationPlan.compute_positions`
(`src/cogstim/mts_helpers/planner.py` lines 218 to 224) before the set
deduplication: for each `a` in `range(min_point_num, max_point_num + 1)` and
each ratio, `b = a / ratio` is kept when it is an integer inside the range and
different from `a`.  The float test `b.is_integer()` together with the range
check is embedded multiplicatively — `b` ranges over the integers of
`[min_point_num, max_point_num]` and is kept when `b * ratio = a` — which for
nonzero ratios selects exactly the same set of pairs as the source's exact
division (Python floats are modelled as exact rationals). -/
def ratio_pairs (minP maxP : ℕ) (ratios : List ℚ) : List (ℕ × ℕ) :=
  (List.range' minP (maxP + 1 - minP)).flatMap fun a =>
    ratios.flatMap fun r =>
      (List.range' minP (maxP + 1 - minP)).filterMap fun (b : ℕ) =>
        if ((b : ℚ) * r = (a : ℚ)) ∧ b ≠ a then some (a, b) else none

/-- Result of `GenerationPlan.compute_positions`
(`src/cogstim/mts_helpers/planner.py` lines 225 to 227): every collected pair
is sorted ascending, the pairs go through a Python set, and the distinct
sorted pairs are returned in ascending lexicographic order. -/
def compute_positions (minP maxP : ℕ) (ratios : List ℚ) : List (ℕ × ℕ) :=
  (((ratio_pairs minP maxP ratios).map fun p =>
    (min p.1 p.2, max p.1 p.2)).dedup).mergeSort fun p q => decide (lexLe p q)

/-- Layout configuration used by the concrete witness scenarios. -/
def cfg0 : LayoutConfig := ⟨1, 2, 1, 10⟩

/-- Raw-draw stream used by the concrete witness scenarios: the first draw
yields a disk of radius 1 at (3, 3), every later draw one at (7, 3). -/
def rand0 : ℕ → RawDraw := fun i => if i = 0 then ⟨1, 3, 3⟩ else ⟨1, 7, 3⟩

/-- First point produced by `rand0` under `cfg0`. -/
def pt0 : Point := ⟨3, 3, 1, GroupLabel.colour_1⟩

/-- Second point produced by `rand0` under `cfg0`. -/
def pt1 : Point := ⟨7, 3, 1, GroupLabel.colour_1⟩

/-- Single-point array of area 1 (in units of pi) used by the equalization
scenarios. -/
def arrA : List Point := [⟨5, 5, 1, GroupLabel.colour_1⟩]

/-- Single-point array of area 4 (in units of pi) used by the equalization
scenarios. -/
def arrB : List Point := [⟨5, 5, 2, GroupLabel.colour_1⟩]

/-- Regeneration oracle that always yields a fresh array of area 4. -/
def regen0 : ℕ → List Point := fun _ => [⟨5, 5, 2, GroupLabel.colour_1⟩]

/-- Outer-attempt oracle on which every attempt raises a recoverable
placement failure. -/
def onceAllFail : ℕ → Except PointLayoutError Unit :=
  fun _ => Except.error ⟨0, GroupLabel.colour_1⟩

theorem clamp_le_hi (lo hi v : ℚ) (h : lo ≤ hi) : clamp lo hi v ≤ hi :=
  max_le h (min_le_right v hi)

theorem lo_le_clamp (lo hi v : ℚ) : lo ≤ clamp lo hi v := le_max_left lo (min v hi)

theorem sqDist_comm (p q : Point) : sqDist p q = sqDist q p := by
  simp only [sqDist]; ring

theorem overlaps_eq_false_iff (c : Point) (l : List Point) :
    overlaps c l = false ↔ ∀ p ∈ l, (c.radius + p.radius) ^ 2 ≤ sqDist c p := by
  simp [overlaps, not_lt]

theorem sampleCandidate_radius (cfg : LayoutConfig) (g : GroupLabel) (d : RawDraw) :
    (sampleCandidate cfg g d).radius = clamp cfg.minRadius cfg.maxRadius d.r := rfl

theorem sampleCandidate_inBounds (cfg : LayoutConfig) (g : GroupLabel) (d : RawDraw)
    (hm : cfg.minRadius ≤ cfg.maxRadius) (hs : 2 * cfg.maxRadius ≤ cfg.canvasSize) :
    inBounds cfg (sampleCandidate cfg g d) := by
  have hr : clamp cfg.minRadius cfg.maxRadius d.r ≤ cfg.maxRadius := clamp_le_hi _ _ _ hm
  have h2 : clamp cfg.minRadius cfg.maxRadius d.r ≤
      cfg.canvasSize - clamp cfg.minRadius cfg.maxRadius d.r := by linarith
  exact ⟨lo_le_clamp _ _ _, clamp_le_hi _ _ _ h2, lo_le_clamp _ _ _, clamp_le_hi _ _ _ h2⟩

theorem placeOnePoint_ok (cfg : LayoutConfig) (g : GroupLabel) (ex : List Point)
    (rand : ℕ → RawDraw) :
    ∀ fuel idx p idx2, placeOnePoint cfg g ex rand idx fuel = Except.ok (p, idx2) →
      (∃ d, p = sampleCandidate cfg g d) ∧ overlaps p ex = false := by
  intro fuel
  induction fuel with
  | zero => intro idx p idx2 h; simp [placeOnePoint] at h
  | succ n ih =>
    intro idx p idx2 h
    rw [placeOnePoint] at h
    by_cases hov : overlaps (sampleCandidate cfg g (rand idx)) ex
    · rw [if_pos hov] at h
      exact ih _ _ _ h
    · rw [if_neg hov] at h
      simp only [Except.ok.injEq, Prod.mk.injEq] at h
      obtain ⟨hp, _⟩ := h
      subst hp
      exact ⟨⟨rand idx, rfl⟩, by simpa using hov⟩

theorem place_n_points_invariants (cfg : LayoutConfig) (g : GroupLabel)
    (rand : ℕ → RawDraw) (hmin : 0 ≤ cfg.minRadius) :
    ∀ n ex idx res, place_n_points n g ex cfg rand idx = Except.ok res →
      radiiNonneg ex → nonOverlapping ex → radiiNonneg res ∧ nonOverlapping res := by
  intro n
  induction n with
  | zero =>
    intro ex idx res h h1 h2
    simp only [place_n_points, Except.ok.injEq] at h
    subst h
    exact ⟨h1, h2⟩
  | succ m ih =>
    intro ex idx res h h1 h2
    rw [place_n_points] at h
    cases hp : placeOnePoint cfg g ex rand idx cfg.attemptsLimit with
    | error e => rw [hp] at h; cases h
    | ok v =>
      obtain ⟨p, idx2⟩ := v
      rw [hp] at h
      obtain ⟨⟨d, hd⟩, hov⟩ := placeOnePoint_ok cfg g ex rand _ _ _ _ hp
      have hrad : 0 ≤ p.radius := by
        rw [hd, sampleCandidate_radius]
        exact le_trans hmin (lo_le_clamp _ _ _)
      have h1a : radiiNonneg (ex ++ [p]) := by
        intro q hq
        rcases List.mem_append.mp hq with hq | hq
        · exact h1 q hq
        · simp only [List.mem_singleton] at hq
          subst hq
          exact hrad
      have h2a : nonOverlapping (ex ++ [p]) := by
        rw [nonOverlapping, List.pairwise_append]
        refine ⟨h2, by simp, ?_⟩
        intro a ha b hb
        simp only [List.mem_singleton] at hb
        rw [hb]
        have hab := (overlaps_eq_false_iff p ex).mp hov a ha
        rw [sqDist_comm p a] at hab
        rwa [add_comm a.radius p.radius]
      exact ih _ _ _ h h1a h2a

theorem place_n_points_inBounds (cfg : LayoutConfig) (g : GroupLabel)
    (rand : ℕ → RawDraw) (hm : cfg.minRadius ≤ cfg.maxRadius)
    (hs : 2 * cfg.maxRadius ≤ cfg.canvasSize) :
    ∀ n ex idx res, place_n_points n g ex cfg rand idx = Except.ok res →
      (∀ p ∈ ex, inBounds cfg p) → ∀ p ∈ res, inBounds cfg p := by
  intro n
  induction n with
  | zero =>
    intro ex idx res h hex
    simp only [place_n_points, Except.ok.injEq] at h
    subst h
    exact hex
  | succ m ih =>
    intro ex idx res h hex
    rw [place_n_points] at h
    cases hp : placeOnePoint cfg g ex rand idx cfg.attemptsLimit with
    | error e => rw [hp] at h; cases h
    | ok v =>
      obtain ⟨p, idx2⟩ := v
      rw [hp] at h
      obtain ⟨⟨d, hd⟩, _⟩ := placeOnePoint_ok cfg g ex rand _ _ _ _ hp
      refine ih _ _ _ h ?_
      intro q hq
      rcases List.mem_append.mp hq with hq | hq
      · exact hex q hq
      · simp only [List.mem_singleton] at hq
        subst hq
        rw [hd]
        exact sampleCandidate_inBounds cfg g d hm hs

/-- C1: every point array successfully returned by the layout operation
`place_n_points` satisfies the no-overlap invariant — for all pairs of
distinct points the Euclidean distance between centres is at least the sum of
the radii.  The operation may start from an existing array already holding
points of either group, so the invariant is kept by every insertion,
cross-group insertions included. -/
theorem claim_c1_no_overlap_invariant (cfg : LayoutConfig) (g : GroupLabel)
    (existing : List Point) (rand : ℕ → RawDraw) (idx n : ℕ) (res : List Point)
    (hmin : 0 ≤ cfg.minRadius) (hrad : radiiNonneg existing)
    (hinv : nonOverlapping existing)
    (hok : place_n_points n g existing cfg rand idx = Except.ok res) :
    ∀ p ∈ res, ∀ q ∈ res, p ≠ q →
      (p.radius : ℝ) + (q.radius : ℝ) ≤ Real.sqrt ((sqDist p q : ℚ) : ℝ) := by
  obtain ⟨h1, h2⟩ :=
    place_n_points_invariants cfg g rand hmin n existing idx res hok hrad hinv
  intro p hp q hq hne
  have hsym : Symmetric fun p q : Point => (p.radius + q.radius) ^ 2 ≤ sqDist p q := by
    intro a b hab
    rw [sqDist_comm b a, add_comm b.radius a.radius]
    exact hab
  have hsq : (p.radius + q.radius) ^ 2 ≤ sqDist p q := List.Pairwise.forall hsym h2 hp hq hne
  have h0 : (0 : ℝ) ≤ (p.radius : ℝ) + (q.radius : ℝ) := by
    have := h1 p hp
    have := h1 q hq
    have hq1 : (0 : ℝ) ≤ (p.radius : ℝ) := by exact_mod_cast h1 p hp
    have hq2 : (0 : ℝ) ≤ (q.radius : ℝ) := by exact_mod_cast h1 q hq
    linarith
  have hsqR : ((p.radius : ℝ) + (q.radius : ℝ)) ^ 2 ≤ ((sqDist p q : ℚ) : ℝ) := by
    exact_mod_cast hsq
  calc (p.radius : ℝ) + (q.radius : ℝ)
      = Real.sqrt (((p.radius : ℝ) + (q.radius : ℝ)) ^ 2) := (Real.sqrt_sq h0).symm
    _ ≤ Real.sqrt ((sqDist p q : ℚ) : ℝ) := Real.sqrt_le_sqrt hsqR

/-- C1 witness: placing two points from the concrete stream `rand0` on the
concrete configuration `cfg0` yields the array `[pt0, pt1]`, and the claim at
that array gives the distance bound for the concrete pair. -/
theorem claim_c1_witness :
    (pt0.radius : ℝ) + (pt1.radius : ℝ) ≤ Real.sqrt ((sqDist pt0 pt1 : ℚ) : ℝ) :=
  claim_c1_no_overlap_invariant cfg0 GroupLabel.colour_1 [] rand0 0 2 [pt0, pt1]
    (by norm_num [cfg0]) (by simp [radiiNonneg]) (by simp [nonOverlapping])
    (by norm_num [place_n_points, placeOnePoint, sampleCandidate, clamp, overlaps,
      sqDist, cfg0, rand0, pt0, pt1])
    pt0 (by simp) pt1 (by simp) (by norm_num [pt0, pt1, Point.mk.injEq])

/-- C7: requesting zero points returns the existing array unchanged without
any error, and the one-colour positions of `PointsGenerator.get_positions`
always request zero points for the second group. -/
theorem claim_c7_zero_points_noop (g : GroupLabel) (existing : List Point)
    (cfg : LayoutConfig) (rand : ℕ → RawDraw) (idx minP maxP : ℕ) :
    place_n_points 0 g existing cfg rand idx = Except.ok existing ∧
      ∀ p ∈ get_positions_one_colour minP maxP, p.2 = 0 := by
  refine ⟨rfl, ?_⟩
  intro p hp
  simp only [get_positions_one_colour, List.mem_map] at hp
  obtain ⟨a, _, rfl⟩ := hp
  rfl

/-- C8: every point of a successfully returned array lies with its whole disk
inside the canvas: `radius ≤ x ≤ canvas_size - radius` and the same for `y`,
provided the configuration is feasible (radius bounds ordered and twice the
maximal radius within the canvas) and the array it grew from was in bounds. -/
theorem claim_c8_in_bounds_invariant (cfg : LayoutConfig) (g : GroupLabel)
    (existing : List Point) (rand : ℕ → RawDraw) (idx n : ℕ) (res : List Point)
    (hm : cfg.minRadius ≤ cfg.maxRadius) (hs : 2 * cfg.maxRadius ≤ cfg.canvasSize)
    (hex : ∀ p ∈ existing, inBounds cfg p)
    (hok : place_n_points n g existing cfg rand idx = Except.ok res) :
    ∀ p ∈ res, inBounds cfg p :=
  place_n_points_inBounds cfg g rand hm hs n existing idx res hok hex

/-- C8 witness: the first point placed by the concrete scenario has its disk
inside the canvas of `cfg0`. -/
theorem claim_c8_witness : inBounds cfg0 pt0 :=
  claim_c8_in_bounds_invariant cfg0 GroupLabel.colour_1 [] rand0 0 2 [pt0, pt1]
    (by norm_num [cfg0]) (by norm_num [cfg0]) (by simp)
    (by norm_num [place_n_points, placeOnePoint, sampleCandidate, clamp, overlaps,
      sqDist, cfg0, rand0, pt0, pt1])
    pt0 (by simp)

theorem createAndSaveGo_all_fail (n1 n2 : ℕ) (once : ℕ → Except PointLayoutError Unit)
    (limit : ℕ) :
    ∀ fuel attempts, attempts + fuel = limit → fuel ≠ 0 →
      (∀ i, attempts ≤ i → i < limit → layoutFailed (once i) = true) →
      createAndSaveGo n1 n2 once limit attempts fuel =
        Except.error ⟨n1, n2, limit⟩ := by
  intro fuel
  induction fuel with
  | zero => intro attempts _ hf; exact absurd rfl hf
  | succ f ih =>
    intro attempts hsum _ hfail
    rw [createAndSaveGo]
    have hfa := hfail attempts le_rfl (by omega)
    cases ho : once attempts with
    | ok u => rw [ho] at hfa; simp [layoutFailed] at hfa
    | error e =>
      dsimp only
      by_cases hl : attempts + 1 = limit
      · rw [if_pos hl, hl]
      · rw [if_neg hl]
        exact ih (attempts + 1) (by omega) (by omega)
          (fun i hi hi2 => hfail i (by omega) hi2)

theorem createAndSaveGo_error_inv (n1 n2 : ℕ) (once : ℕ → Except PointLayoutError Unit)
    (limit : ℕ) :
    ∀ fuel attempts e, attempts + fuel = limit →
      createAndSaveGo n1 n2 once limit attempts fuel = Except.error e →
      ∀ i, attempts ≤ i → i < limit → layoutFailed (once i) = true := by
  intro fuel
  induction fuel with
  | zero => intro attempts e _ h; cases h
  | succ f ih =>
    intro attempts e hsum h
    rw [createAndSaveGo] at h
    cases ho : once attempts with
    | ok u => rw [ho] at h; cases h
    | error e2 =>
      rw [ho] at h
      have hat : layoutFailed (once attempts) = true := by rw [ho]; rfl
      by_cases hl : attempts + 1 = limit
      · intro i hi hi2
        have : i = attempts := by omega
        rw [this]
        exact hat
      · rw [if_neg hl] at h
        intro i hi hi2
        rcases Nat.eq_or_lt_of_le hi with hq | hq
        · rw [← hq]
          exact hat
        · exact ih (attempts + 1) e (by omega) h i (by omega) hi2

theorem createAndSaveGo_first_success (n1 n2 : ℕ)
    (once : ℕ → Except PointLayoutError Unit) (limit : ℕ) :
    ∀ fuel attempts k, attempts + fuel = limit → attempts ≤ k → k < limit →
      layoutFailed (once k) = false →
      (∀ i, attempts ≤ i → i < k → layoutFailed (once i) = true) →
      createAndSaveGo n1 n2 once limit attempts fuel = Except.ok (some k) := by
  intro fuel
  induction fuel with
  | zero => intro attempts k hsum hak hkl; omega
  | succ f ih =>
    intro attempts k hsum hak hkl hkok hfail
    rw [createAndSaveGo]
    cases ho : once attempts with
    | ok u =>
      have : attempts = k := by
        by_contra hne
        have := hfail attempts le_rfl (by omega)
        rw [ho] at this
        simp [layoutFailed] at this
      subst this
      rfl
    | error e =>
      have hne : attempts ≠ k := by
        intro hq
        rw [← hq, ho] at hkok
        simp [layoutFailed] at hkok
      have hl : attempts + 1 ≠ limit := by omega
      dsimp only
      rw [if_neg hl]
      exact ih (attempts + 1) k (by omega) (by omega) hkl hkok
        (fun i hi hi2 => hfail i (by omega) hi2)

/-- C2 counterexample: with an outer attempts cap of zero, every attempt
index below the cap fails vacuously — the attempts counter already stands at
the cap — yet `create_and_save` raises no terminal error; the request ends
silently with the image never created, so the terminal error is not raised
exactly when the cap is reached. -/
theorem claim_c2_counterexample :
    (∀ i, i < 0 → layoutFailed (onceAllFail i) = true) ∧
      create_and_save 5 0 onceAllFail 0 = Except.ok none := by
  constructor
  · intro i hi
    exact absurd hi (Nat.not_lt_zero i)
  · rfl

/-- C2 amended: for a positive outer attempts cap, the retry loop of
`create_and_save` retries the whole image from scratch after each recoverable
placement failure (each attempt consults the fresh-attempt oracle at its own
index, discarding earlier partial work), the terminal error is raised exactly
when all cap attempts fail, any raised terminal error carries the diagnostic
data (requested counts and attempts consumed), and the first successful
attempt ends the loop with the image saved.  With a cap of zero the loop
silently does nothing. -/
theorem claim_c2_outer_retry_amended (n1 n2 : ℕ)
    (once : ℕ → Except PointLayoutError Unit) (limit : ℕ) (hpos : 1 ≤ limit) :
    (create_and_save n1 n2 once limit = Except.error ⟨n1, n2, limit⟩ ↔
      ∀ i, i < limit → layoutFailed (once i) = true) ∧
      ∀ k, k < limit → layoutFailed (once k) = false →
        (∀ i, i < k → layoutFailed (once i) = true) →
        create_and_save n1 n2 once limit = Except.ok (some k) := by
  constructor
  · constructor
    · intro h i hi
      exact createAndSaveGo_error_inv n1 n2 once limit limit 0 _ (by omega) h i
        (Nat.zero_le i) hi
    · intro h
      exact createAndSaveGo_all_fail n1 n2 once limit limit 0 (by omega) (by omega)
        (fun i _ hi => h i hi)
  · intro k hk hok hfail
    exact createAndSaveGo_first_success n1 n2 once limit limit 0 k (by omega)
      (Nat.zero_le k) hk hok (fun i _ hi => hfail i hi)

/-- C2 witness: with a cap of one and an oracle that always fails, the loop
raises the terminal error carrying the requested counts and the one attempt
consumed. -/
theorem claim_c2_witness :
    create_and_save 5 0 onceAllFail 1 = Except.error ⟨5, 0, 1⟩ :=
  ((claim_c2_outer_retry_amended 5 0 onceAllFail 1 le_rfl).1).mpr fun _ _ => rfl

/-- C6 counterexample: at the default `GENERAL_CONFIG` the outer retry budget
of `create_and_save` equals the inner layout attempt budget handed to the
placement engine — both read the single configuration value `attempts_limit`
— so the outer budget is neither distinct from nor larger than the inner
one. -/
theorem claim_c6_counterexample :
    outerRetryBudget generalConfig = innerLayoutBudget generalConfig ∧
      ¬ innerLayoutBudget generalConfig < outerRetryBudget generalConfig :=
  ⟨rfl, lt_irrefl 2000⟩

/-- C6 amended: for every configuration the orchestrator's outer retry budget
and the inner layout attempt budget are the same configured value
`attempts_limit`; the code keeps no second, larger budget. -/
theorem claim_c6_budgets_amended (c : AnsConfig) :
    outerRetryBudget c = innerLayoutBudget c := rfl

/-- C3: for non-negative areas whose maximum is at least one, the spec's
equal-enough predicate coincides with the acceptance check implemented by the
equalization checker script — the absolute-or-relative disjunction with
denominator `max(a, b, 1)` is exactly the spec's single `max` bound, for every
pair of tolerances. -/
theorem claim_c3_tolerance_equivalence (a b absTol relTol : ℚ)
    (ha : 0 ≤ a) (hb : 0 ≤ b) (h1 : 1 ≤ max a b) :
    equalEnough a b absTol relTol ↔ implEqualEnough a b absTol relTol := by
  have hpos : 0 < max a b := lt_of_lt_of_le one_pos h1
  have hden : max (max a b) 1 = max a b := max_eq_left h1
  rw [equalEnough, implEqualEnough, hden, le_max_iff, div_le_iff₀ hpos]

/-- C3 witness: the equivalence evaluated at areas 5 and 3 with absolute
tolerance 2 and relative tolerance 0. -/
theorem claim_c3_witness :
    equalEnough 5 3 2 0 ↔ implEqualEnough 5 3 2 0 :=
  claim_c3_tolerance_equivalence 5 3 2 0 (by norm_num) (by norm_num) (by norm_num)

/-- C10: `SummaryWriter.add` is total on all integer inputs — the ratio
division is guarded (the ratio is 0 when `num2 = 0`), the relative-difference
denominator `max(area1_px, area2_px, 1)` is at least one, and the computed
row is always produced, so neither checked division can signal a division by
zero. -/
theorem claim_c10_summary_add_total (num1 num2 area1Px area2Px : ℤ)
    (equalized : Bool) :
    summaryWriterAdd num1 num2 area1Px area2Px equalized =
      some ⟨num1, num2, area1Px, area2Px,
        if num2 ≠ 0 then (num1 : ℚ) / (num2 : ℚ) else 0,
        |area1Px - area2Px|,
        ((|area1Px - area2Px| : ℤ) : ℚ) / ((max (max area1Px area2Px) 1 : ℤ) : ℚ),
        equalized⟩ ∧
      (1 : ℤ) ≤ max (max area1Px area2Px) 1 := by
  have h1 : (1 : ℤ) ≤ max (max area1Px area2Px) 1 := le_max_right _ _
  refine ⟨?_, h1⟩
  have hden : ((max (max area1Px area2Px) 1 : ℤ) : ℚ) ≠ 0 := by
    have h0 : (0 : ℤ) < max (max area1Px area2Px) 1 := lt_of_lt_of_le one_pos h1
    exact_mod_cast ne_of_gt h0
  have hden2 : max (max (area1Px : ℚ) (area2Px : ℚ)) 1 ≠ 0 := by
    push_cast at hden
    exact hden
  by_cases h2 : num2 = 0
  · simp [summaryWriterAdd, h2, checkedDiv, hden, hden2]
  · have hq2 : ((num2 : ℤ) : ℚ) ≠ 0 := Int.cast_ne_zero.mpr h2
    simp [summaryWriterAdd, h2, checkedDiv, hden, hden2, hq2]

theorem equalizeFrom_failure (relTol absTol : ℚ) (regen : ℕ → List Point) :
    ∀ fuel idx a b, (equalizeFrom relTol absTol regen idx fuel a b).success = false →
      ¬ equalEnough (area (equalizeFrom relTol absTol regen idx fuel a b).group_a_points)
        (area (equalizeFrom relTol absTol regen idx fuel a b).group_b_points)
        absTol relTol := by
  intro fuel
  induction fuel with
  | zero =>
    intro idx a b hs
    by_cases h : equalEnough (area a) (area b) absTol relTol
    · simp only [equalizeFrom, if_pos h] at hs
      cases hs
    · simp only [equalizeFrom, if_neg h] at hs ⊢
      exact h
  | succ f ih =>
    intro idx a b hs
    by_cases h : equalEnough (area a) (area b) absTol relTol
    · simp only [equalizeFrom, if_pos h] at hs
      cases hs
    · simp only [equalizeFrom, if_neg h] at hs ⊢
      by_cases hle : area a ≤ area b
      · rw [if_pos hle] at hs ⊢
        exact ih _ _ _ hs
      · rw [if_neg hle] at hs ⊢
        exact ih _ _ _ hs

/-- C4: a failed equalization is reported as a plain `success = false` result
— the returned result still carries arrays that are genuinely out of
tolerance, no exception is involved because `equalize` is a total function
into `EqualizationResult` — and the orchestrator `ImagePrinter.run` reacts to
a failed equalization by skipping the save (when the counts differ) or saving
the pair under the `rnd` tag (when they agree); it never aborts the run. -/
theorem claim_c4_equalization_failure_is_result (a b : List Point)
    (relTol absTol : ℚ) (limit : ℕ) (regen : ℕ → List Point)
    (hfail : (equalize a b relTol absTol limit regen).success = false) :
    ¬ equalEnough (area (equalize a b relTol absTol limit regen).group_a_points)
        (area (equalize a b relTol absTol limit regen).group_b_points)
        absTol relTol ∧
      ∀ n1 n2 : ℕ,
        imagePrinterEqualizedOutcome n1 n2 false = RunOutcome.skipped ∨
          imagePrinterEqualizedOutcome n1 n2 false = RunOutcome.savedRnd := by
  refine ⟨equalizeFrom_failure relTol absTol regen limit 0 a b hfail, ?_⟩
  intro n1 n2
  by_cases h : n1 = n2
  · right
    simp [imagePrinterEqualizedOutcome, h]
  · left
    simp [imagePrinterEqualizedOutcome, h]

/-- C4 witness: with zero tolerances, a zero regeneration budget and arrays of
areas 1 and 4, equalization fails as a result value whose arrays are out of
tolerance, and the orchestrator outcome for a failed unequal pair is a skip or
an `rnd`-tagged save. -/
theorem claim_c4_witness :
    ¬ equalEnough (area (equalize arrA arrB 0 0 0 regen0).group_a_points)
        (area (equalize arrA arrB 0 0 0 regen0).group_b_points) 0 0 ∧
      (imagePrinterEqualizedOutcome 3 5 false = RunOutcome.skipped ∨
        imagePrinterEqualizedOutcome 3 5 false = RunOutcome.savedRnd) := by
  have h := claim_c4_equalization_failure_is_result arrA arrB 0 0 0 regen0
    (by norm_num [equalize, equalizeFrom, equalEnough, area, arrA, arrB])
  exact ⟨h.1, h.2 3 5⟩

/-- C5 counterexample: on a concrete input where equalization succeeds by
regenerating the first array, the legacy caller `generate_pair` still returns
the arrays bound before the call — its returned first array differs from the
one carried by the equalization result — so not every caller receives and
uses the arrays from the result. -/
theorem claim_c5_counterexample :
    (generate_pair arrA arrB 0 0 1 regen0).1 = (arrA, arrB) ∧
      (equalize arrA arrB 0 0 1 regen0).success = true ∧
      (equalize arrA arrB 0 0 1 regen0).group_a_points ≠ arrA := by
  refine ⟨rfl, ?_, ?_⟩ <;>
    norm_num [equalize, equalizeFrom, equalEnough, area, arrA, arrB, regen0,
      Point.mk.injEq]

/-- C5 amended: every equalization attempt returns an `EqualizationResult`
carrying the success flag together with both point arrays, and at budget
exhaustion the failure result returns exactly the current — last successfully
generated but still unequal — arrays; the generators-variant caller
`create_image_pair` takes both arrays from the result, while the legacy
`generate_pair` caller uses only the success flag and returns the arrays it
had bound before the equalization call. -/
theorem claim_c5_result_arrays_amended (sPts mPts a b : List Point)
    (relTol absTol : ℚ) (limit idx : ℕ) (regen : ℕ → List Point)
    (hne : ¬ equalEnough (area a) (area b) absTol relTol) :
    equalizeFrom relTol absTol regen idx 0 a b = ⟨false, a, b⟩ ∧
      (∀ p, create_image_pair sPts mPts relTol absTol limit regen = some p →
        p = ((equalize sPts mPts relTol absTol limit regen).group_a_points,
          (equalize sPts mPts relTol absTol limit regen).group_b_points)) ∧
      (generate_pair sPts mPts relTol absTol limit regen).1 = (sPts, mPts) := by
  refine ⟨?_, ?_, rfl⟩
  · simp only [equalizeFrom, if_neg hne]
  · intro p hp
    rw [create_image_pair] at hp
    cases hs : (equalize sPts mPts relTol absTol limit regen).success with
    | false => rw [hs] at hp; simp at hp
    | true =>
      rw [hs] at hp
      simp only [if_true, Option.some.injEq] at hp
      exact hp.symm

/-- C5 witness: the amended claim evaluated on the concrete scenario — budget
exhaustion returns the last arrays with a false flag, and the legacy caller
returns the pre-equalization pair. -/
theorem claim_c5_witness :
    equalizeFrom 0 0 regen0 0 0 arrA arrB = ⟨false, arrA, arrB⟩ ∧
      (generate_pair arrA arrB 0 0 1 regen0).1 = (arrA, arrB) :=
  ⟨(claim_c5_result_arrays_amended arrA arrB arrA arrB 0 0 1 0 regen0
      (by norm_num [equalEnough, area, arrA, arrB])).1,
    (claim_c5_result_arrays_amended arrA arrB arrA arrB 0 0 1 0 regen0
      (by norm_num [equalEnough, area, arrA, arrB])).2.2⟩


theorem mem_ratio_pairs (minP maxP : ℕ) (ratios : List ℚ) (p : ℕ × ℕ)
    (hp : p ∈ ratio_pairs minP maxP ratios) :
    ∃ r ∈ ratios, minP ≤ p.1 ∧ p.1 ≤ maxP ∧ minP ≤ p.2 ∧ p.2 ≤ maxP ∧
      p.2 ≠ p.1 ∧ (p.2 : ℚ) * r = (p.1 : ℚ) := by
  simp only [ratio_pairs, List.mem_flatMap, List.mem_filterMap] at hp
  obtain ⟨a, ha, r, hr, b, hb, hif⟩ := hp
  have hab := List.mem_range'_1.mp ha
  have hbb := List.mem_range'_1.mp hb
  by_cases hc : ((b : ℚ) * r = (a : ℚ)) ∧ b ≠ a
  · rw [if_pos hc] at hif
    obtain ⟨h1, h2⟩ := hc
    injection hif with hif
    refine ⟨r, hr, ?_⟩
    rw [← hif]
    exact ⟨hab.1, by omega, hbb.1, by omega, h2, h1⟩
  · rw [if_neg hc] at hif
    cases hif

/-- C9 counterexample: with a ratio list containing a ratio greater than one,
a pair returned by `compute_positions` is ordered as `(n, m)` with
`m = n * ratio`; it does not satisfy `m = n / ratio` for any ratio in the
list, so the claim as stated fails. -/
theorem claim_c9_counterexample :
    compute_positions 2 4 [2] = [(2, 4)] ∧
      ¬ ∃ r ∈ [(2 : ℚ)], ((4 : ℕ) : ℚ) = ((2 : ℕ) : ℚ) / r := by
  constructor
  · have h : ratio_pairs 2 4 [2] = [(4, 2)] := by
      norm_num [ratio_pairs, List.range', List.filterMap_cons]
    simp only [compute_positions, h]
    norm_num [List.dedup_cons_of_not_mem, List.mergeSort_singleton]
  · rintro ⟨r, hr, h⟩
    simp only [List.mem_singleton] at hr
    subst hr
    norm_num at h

/-- C9 amended: for nonzero ratios, every pair `(n, m)` returned by
`GenerationPlan.compute_positions` satisfies
`min_point_num ≤ n < m ≤ max_point_num` and, for some ratio in the list,
either `m = n / ratio` or `n = m / ratio` (the pair is sorted ascending after
the division, so a ratio above one lands its quotient in the first
component); the returned list is strictly sorted lexicographically with no
duplicate pairs. -/
theorem claim_c9_compute_positions_amended (minP maxP : ℕ) (ratios : List ℚ)
    (hnz : ∀ r ∈ ratios, r ≠ 0) :
    (∀ p ∈ compute_positions minP maxP ratios,
        minP ≤ p.1 ∧ p.1 < p.2 ∧ p.2 ≤ maxP ∧
          ∃ r ∈ ratios, (p.2 : ℚ) = (p.1 : ℚ) / r ∨ (p.1 : ℚ) = (p.2 : ℚ) / r) ∧
      List.Pairwise lexLt (compute_positions minP maxP ratios) := by
  constructor
  · intro p hp
    rw [compute_positions, List.mem_mergeSort, List.mem_dedup, List.mem_map] at hp
    obtain ⟨q, hq, hpq⟩ := hp
    obtain ⟨r, hr, h1, h2, h3, h4, hne, hmul⟩ := mem_ratio_pairs minP maxP ratios q hq
    have hrnz : r ≠ 0 := hnz r hr
    rw [← hpq]
    rcases le_total q.1 q.2 with hle | hle
    · rw [min_eq_left hle, max_eq_right hle]
      refine ⟨h1, lt_of_le_of_ne hle fun h => hne h.symm, h4, r, hr, Or.inl ?_⟩
      exact (eq_div_iff hrnz).mpr hmul
    · rw [min_eq_right hle, max_eq_left hle]
      refine ⟨h3, lt_of_le_of_ne hle hne, h2, r, hr, Or.inr ?_⟩
      exact (eq_div_iff hrnz).mpr hmul
  · have htrans : ∀ a b c : ℕ × ℕ, decide (lexLe a b) = true →
        decide (lexLe b c) = true → decide (lexLe a c) = true := by
      intro a b c ht1 ht2
      simp only [decide_eq_true_eq, lexLe] at ht1 ht2 ⊢
      omega
    have htotal : ∀ a b : ℕ × ℕ,
        (decide (lexLe a b) || decide (lexLe b a)) = true := by
      intro a b
      simp only [Bool.or_eq_true, decide_eq_true_eq, lexLe]
      omega
    rw [compute_positions]
    have hsorted := List.sorted_mergeSort htrans htotal
      (((ratio_pairs minP maxP ratios).map fun p => (min p.1 p.2, max p.1 p.2)).dedup)
    have hnodup : ((((ratio_pairs minP maxP ratios).map fun p =>
        (min p.1 p.2, max p.1 p.2)).dedup).mergeSort fun p q =>
          decide (lexLe p q)).Nodup :=
      ((List.mergeSort_perm _ _).nodup_iff).mpr (List.nodup_dedup _)
    refine List.Pairwise.imp ?_ (List.Pairwise.and hsorted hnodup)
    intro a b hab
    obtain ⟨hle, hne⟩ := hab
    simp only [decide_eq_true_eq, lexLe] at hle
    have hne2 : ¬(a.1 = b.1 ∧ a.2 = b.2) := by
      intro hh
      exact hne (Prod.ext hh.1 hh.2)
    rcases a with ⟨a1, a2⟩
    rcases b with ⟨b1, b2⟩
    simp only [lexLt]
    simp only at hle hne2
    omega

/-- C9 witness: the amended claim evaluated on the range 1 to 4 with the
single ratio one half: the returned list is strictly sorted. -/
theorem claim_c9_witness :
    List.Pairwise lexLt (compute_positions 1 4 [(1 : ℚ) / 2]) :=
  (claim_c9_compute_positions_amended 1 4 [(1 : ℚ) / 2] (by norm_num)).2

end Cogstim
